import Mathlib

/-!
Verification of the Step lifecycle of `stimela/kitchen/step.py`.

The Python source is shallowly embedded below.  Python dictionaries are
modelled as insertion-ordered association lists (lookup returns the first
matching key; assignment replaces in place or appends), Python `None` as
`Option.none`, exceptions as `Except`, and the mutable object heap holding
cargo objects (needed because the code relies on object identity for the
process-wide cab cache and `copy.copy`) as an explicit `World` with integer
object ids.  External collaborators (the scabha validation/substitution
engine, the `Cab`/`Recipe` classes of which only the interface is used here)
are modelled as data (`Cargo`) plus an engine record (`Env`) of opaque
functions, as the spec directs for out-of-scope subsystems.
-/

namespace Stimela

/-- Python values flowing through parameter maps: concrete values, the
scabha `Error` marker (an invalid parameter), and the scabha `Unresolved`
marker (a value still awaiting substitution). -/
inductive PValue where
  | int (n : Int)
  | str (s : String)
  | bool (b : Bool)
  | error
  | unresolved
  deriving Repr, DecidableEq

/-- A Python dict with string keys, as an insertion-ordered association
list.  Lookup takes the first match; `aset` overwrites in place. -/
abbrev Params := List (String × PValue)

/-- Dict lookup (`d[k]` / `d.get(k)`): first entry with the given key. -/
def alookup {κ β : Type} [DecidableEq κ] (p : List (κ × β)) (k : κ) : Option β :=
  match p with
  | [] => none
  | (k', v) :: rest => if k = k' then some v else alookup rest k

/-- Dict membership (`k in d`). -/
def acontains {κ β : Type} [DecidableEq κ] (p : List (κ × β)) (k : κ) : Bool :=
  match p with
  | [] => false
  | (k', _) :: rest => if k = k' then true else acontains rest k

/-- Dict assignment (`d[k] = v`): replace the existing entry in place, else
append at the end, matching Python dict insertion order. -/
def aset {κ β : Type} [DecidableEq κ] (p : List (κ × β)) (k : κ) (v : β) : List (κ × β) :=
  match p with
  | [] => [(k, v)]
  | (k', v') :: rest => if k = k' then (k, v) :: rest else (k', v') :: aset rest k v

/-- Dict update (`d.update(**other)`): assign every entry of `other` into
`d`, in order. -/
def aupdate {κ β : Type} [DecidableEq κ] (p other : List (κ × β)) : List (κ × β) :=
  other.foldl (fun acc kv => aset acc kv.1 kv.2) p

/-- Left-biased choice on `Option`, used to state lookup-precedence facts. -/
def orElseO {α : Type} (a b : Option α) : Option α :=
  match a with
  | some x => some x
  | none => b

/-- Truthiness of a Python optional string (`bool(None) = bool("") = False`). -/
def truthyOptStr : Option String → Bool
  | none => false
  | some s => s ≠ ""

/-! ## Nested configuration trees and the dotted-reference resolver -/

/-- A nested dict-like configuration tree: a node is a mapping from names to
subtrees, a leaf is a terminal value (a non-mapping entry has no keys). -/
inductive DictTree (α : Type) where
  | leaf (v : α)
  | node (entries : List (String × DictTree α))

/-- Python truthiness for leaf values of a configuration tree. -/
class PyTruthy (α : Type) where
  truthy : α → Bool

instance : PyTruthy Int := ⟨fun n => n != 0⟩

/-- Truthiness of a tree (`bool(section)`): a mapping is truthy iff
nonempty; a leaf defers to its value's truthiness. -/
def DictTree.truthy {α : Type} [PyTruthy α] : DictTree α → Bool
  | .leaf v => PyTruthy.truthy v
  | .node es => !es.isEmpty

/-- `element in section`: key membership in a mapping node (a non-mapping
value has no members). -/
def DictTree.containsKey {α : Type} : DictTree α → String → Bool
  | .leaf _, _ => false
  | .node es, k => es.any (fun e => e.1 = k)

/-- `section[element]` on a mapping node (only evaluated under a
`containsKey` guard in the source). -/
def DictTree.getKey {α : Type} : DictTree α → String → DictTree α
  | .leaf _, _ => .node []
  | .node es, k => ((es.find? (fun e => e.1 = k)).map (fun e => e.2)).getD (.node [])

/-- The `NameError` raised by `resolve_dotted_reference`, with the data the
source interpolates into each message. -/
inductive RefErr where
  | leadingDot (context : String)
  | bareDot (context : String)
  | doubleDot (context : String)
  | notSection (context element key : String)
  deriving Repr, DecidableEq

/-- Whether an `Except` is an error. -/
def isErr {ε α : Type} : Except ε α → Bool
  | .error _ => true
  | .ok _ => false

/-- Python's `key.split('.')` on the character list: splitting on the
separator, an empty string yielding `[""]`, as `str.split` with an explicit
separator does. -/
def splitCharsDot (l : List Char) : List String :=
  match l with
  | [] => [""]
  | c :: rest =>
      let r := splitCharsDot rest
      if c = '.' then "" :: r
      else (String.mk (c :: (r.headD "").data)) :: r.tail

/-- Python's `key.split('.')`. -/
def pySplitDot (s : String) : List String :=
  splitCharsDot s.data

/-- Python's `'.' in name`. -/
def containsDot (s : String) : Bool :=
  s.data.contains '.'

/-- The `for element in path[:-1]` walk of `resolve_dotted_reference`
(source lines 359-365): descend through each non-final segment, failing on
an empty or missing segment. -/
def walkSections {α : Type} (context key : String) :
    DictTree α → List String → Except RefErr (DictTree α)
  | sec, [] => .ok sec
  | sec, element :: rest =>
      if element = "" then .error (.doubleDot context)
      else if sec.containsKey element then
        walkSections context key (sec.getKey element) rest
      else .error (.notSection context element key)

/-- Attach `varname = path[-1]` (source line 358) to a successful walk;
errors pass through. -/
def attachName {α : Type} (path : List String) :
    Except RefErr (DictTree α) → Except RefErr (DictTree α × String)
  | .error e => .error e
  | .ok sec => .ok (sec, path.getLastD "")

/-- Walk the non-final segments of the (already stripped) path from a
section and return `(section, varname)` (source lines 358-366). -/
def resolveFrom {α : Type} (context key : String) (sec : DictTree α)
    (path : List String) : Except RefErr (DictTree α × String) :=
  attachName path (walkSections context key sec path.dropLast)

/-- The relative branch (source lines 354-357): the path with its empty
leading segment stripped; an empty remainder (`path = path[1:]` empty,
i.e. the key was the empty string) raises; otherwise walk from the current
section. -/
def resolveRelative {α : Type} (context key : String) (current : Option (DictTree α)) :
    List String → Except RefErr (DictTree α × String)
  | [] => .error (.bareDot context)
  | r :: rs => resolveFrom context key (current.getD (.node [])) (r :: rs)

/-- `resolve_dotted_reference(key, base, current, context)` from
`step.py`: split `key` on `'.'`; a truthy first segment walks from `base`,
an empty first segment switches to `current` (failing when `current` is
falsy, or when nothing follows); then walk all non-final segments and
return the final containing section together with the final name, which is
not itself required to exist. -/
def resolve_dotted_reference {α : Type} [PyTruthy α] (key : String) (base : DictTree α)
    (current : Option (DictTree α)) (context : String) :
    Except RefErr (DictTree α × String) :=
  match pySplitDot key with
  | [] => .error (.bareDot context)
  | p0 :: rest =>
      if p0 ≠ "" then resolveFrom context key base (p0 :: rest)
      else if !(match current with
                | none => false
                | some t => t.truthy) then
        .error (.leadingDot context)
      else resolveRelative context key current rest

/-! ## The Step data model

`tags`, `info`, `assign`, `assign_based_on` and `runtime` carry no logic in
`step.py` (they are consumed by the enclosing recipe) and are omitted.
The `log`/`logopts`/`nesting` properties and all logging side effects are
modelled as trace events where a claim depends on them. -/

/-- A parameter schema entry of the cargo's `inputs_outputs` map. -/
structure Schema where
  required : Bool := false
  default : Option PValue := none
  deriving Repr, DecidableEq

/-- Whether the bound cargo is an external task (`Cab`) or a nested
sub-workflow (`Recipe`). -/
inductive CargoKind where
  | cab
  | recipe
  deriving Repr, DecidableEq

/-- Modelled from the spec: the executable unit a step binds to ("cargo").
`Cab`/`Recipe` live outside this repository; only the fields `step.py`
reads are modelled: the display `name` (assigned by `finalize`), the
`inputs_outputs` schema map, the keys of the `outputs` map, the cargo's own
`defaults` mapping, and the cargo-declared `backend`. -/
structure Cargo where
  kind : CargoKind := .cab
  name : String := ""
  inputs_outputs : List (String × Schema) := []
  outputNames : List String := []
  defaults : Params := []
  backend : Option String := none
  deriving Repr, DecidableEq

/-- A scabha validation-engine exception (`ScabhaBaseException`), carrying
only what `run` inspects: whether it is a `SubstitutionErrorList` (a list of
individually logged sub-errors) or a single message. -/
inductive ScabhaErr where
  | substitutionErrorList (errs : List String)
  | general (msg : String)
  deriving Repr, DecidableEq

/-- A value the `recipe` field of a step may resolve to: an already typed
`Recipe` object, a raw (`DictConfig`) definition whose external typed
instantiation either succeeds with a cargo or fails, or a value of any
other type. -/
inductive RecipeVal where
  | typed (c : Cargo)
  | raw (inst : Option Cargo)
  | other
  deriving Repr, DecidableEq

/-- The `recipe` field of a step: a name (possibly dotted) to look up, or a
direct value. -/
inductive RecipeField where
  | byName (n : String)
  | byValue (v : RecipeVal)
  deriving Repr, DecidableEq

instance : PyTruthy RecipeVal := ⟨fun _ => true⟩

/-- Python truthiness of the `recipe` field (`if self.recipe:`): an empty
string is falsy, any looked-up object is truthy. -/
def truthyRecipeField : Option RecipeField → Bool
  | none => false
  | some (.byName n) => n ≠ ""
  | some (.byValue _) => true

/-- The relevant slice of the global `stimela.CONFIG`: the recipe library
`lib.recipes`, the configuration tree used as the base of dotted recipe
references, the cab definitions `config.cabs`, and the process-wide default
backend `opts.backend`. -/
structure Config where
  lib_recipes : List (String × RecipeVal) := []
  tree : DictTree RecipeVal := .node []
  cabs : List (String × Cargo) := []
  optsBackend : String := "native"

/-- The mutable object store: cargo objects addressed by id (Python object
identity), plus the process-wide `Step._instantiated_cabs` cache mapping a
cab name to the id of the cargo first instantiated for it. -/
structure World where
  heap : List (Nat × Cargo) := []
  instantiated_cabs : List (String × Nat) := []
  nextId : Nat := 0
  deriving Repr, DecidableEq

/-- Fetch the cargo object with the given id. -/
def heapGet (w : World) (i : Nat) : Option Cargo :=
  alookup w.heap i

/-- Overwrite the cargo object with the given id (in the source an
attribute assignment on an object, so the id is always live). -/
def heapSet (w : World) (i : Nat) (c : Cargo) : World :=
  { w with heap := aset w.heap i c }

/-- Allocate a fresh cargo object, returning its id. -/
def World.alloc (w : World) (c : Cargo) : Nat × World :=
  (w.nextId, { w with heap := (w.nextId, c) :: w.heap, nextId := w.nextId + 1 })

/-- The shared substitution namespace (`SubstitutionNS`); `run` reads and
publishes its `current` scope. -/
structure Subst where
  current : Params := []
  deriving Repr, DecidableEq

/-- The `subst` argument of `prevalidate`: absent, a substitution
namespace, or — as happens when `run` calls `self.prevalidate(self.params)`
— a plain parameter dict passed positionally. -/
inductive SubstArg where
  | absent
  | ns (s : Subst)
  | raw (p : Params)
  deriving Repr, DecidableEq

/-- Modelled from the spec: the external scabha validation/substitution
engine and the cargo methods delegating to it (`evaluate_and_substitute`
for the skip expression, `cargo.prevalidate`, `cargo.validate_inputs`,
`cargo.validate_outputs`).  Their behaviour is opaque to this core, so they
are quantified over as an engine record. -/
structure Env where
  skipEval : Option String → Subst → Bool
  prevalidateCargo : Cargo → Params → SubstArg → Params
  validate_inputs : Cargo → Params → Bool → Option Subst → Except ScabhaErr Params
  validate_outputs : Cargo → Params → Bool → Option Subst → Except ScabhaErr Params

/-- Observable actions of one `run`, in order: the skip expression being
handed to the substitution engine, log warnings/errors, the skip-branch
info messages, and dispatch to the external task runner (`runners.run_cab`)
or the sub-workflow runner (`Recipe._run`). -/
inductive Event where
  | skipSubstEval
  | logInputErrorWarn
  | logInputErrorHard
  | warnNotFatal
  | warnInvalidInputs (names : List String)
  | infoSkipExpr
  | infoSkipExplicit
  | runRecipe (params : Params)
  | runCab (params : Params) (backend : String)
  | logOutputError
  | warnInvalidOutputs (names : List String)
  deriving Repr, DecidableEq

/-- The exceptions `step.py` raises, with the data each message
interpolates.  `stepValidation` carries the raw message because the source
raise on line 49 lacks the `f`-prefix, so nothing is interpolated there. -/
inductive StimelaErr where
  | stepValidation (msg : String)
  | recipeNotFoundLib (stepName recipeName : String)
  | recipeNotFound (stepName recipeName : String)
  | recipeInstantiation (stepName : String)
  | recipeTypeError (stepName : String)
  | unknownCab (stepName : String) (cab : Option String)
  | ref (e : RefErr)
  | prevalidateInvalid (stepName cargoName : String) (names : List String)
  | scabha (e : ScabhaErr)
  | invalidInputs (stepName : String) (names : List String)
  | invalidOutputs (names : List String)
  | internal (msg : String)
  deriving Repr, DecidableEq

/-- One processing step of a recipe (the `Step` dataclass).  `cargo` holds
the id of the bound cargo object (`None` until finalized), `skipFixed` is
the source's `_skip` attribute preset by `__post_init__`. -/
structure Step where
  cab : Option String := none
  recipe : Option RecipeField := none
  params : Params := []
  skip : Option String := none
  backend : Option String := none
  name : String := ""
  fqname : String := ""
  cargo : Option Nat := none
  validated_params : Option Params := none
  skipFixed : Option Bool := none
  defaults : Params := []
  deriving Repr, DecidableEq

/-- `Step.finalized`: the step is bound once a cargo is assigned. -/
def Step.finalized (s : Step) : Bool :=
  s.cargo.isSome

/-- Names bound to the scabha `Error` marker in a parameter map. -/
def invalidOf (vp : Params) : List String :=
  vp.filterMap (fun kv => if kv.2 = .error then some kv.1 else none)

/-- Names bound to the scabha `Unresolved` marker in a parameter map. -/
def unresolvedOf (vp : Params) : List String :=
  vp.filterMap (fun kv => if kv.2 = .unresolved then some kv.1 else none)

/-- `Step.invalid_params`: names with an `Error` value among the validated
parameters. -/
def Step.invalid_params (s : Step) : List String :=
  invalidOf (s.validated_params.getD [])

/-- `Step.unresolved_params`: names with an `Unresolved` value among the
validated parameters. -/
def Step.unresolved_params (s : Step) : List String :=
  unresolvedOf (s.validated_params.getD [])

/-- The constant message of the `StepValidationError` raised by
`__post_init__` (source line 49): the string literal lacks the `f`-prefix,
so `\x7bself.name\x7d` is literal text and the step's name never appears. -/
def postInitMessage : String :=
  "step \x27\x7bself.name\x7d\x27: step must specify either a cab or a nested recipe, but not both"

/-- The `_skip` preset of `__post_init__` (source lines 59-65): a literal
boolean token fixes the decision at construction, unset/empty fixes it to
false, anything else defers it to runtime. -/
def skipFixedOf (sk : Option String) : Option Bool :=
  if sk = some "True" ∨ sk = some "true" ∨ sk = some "1" then some true
  else if sk = some "False" ∨ sk = some "false" ∨ sk = some "0" ∨ sk = some "" ∨ sk = none then
    some false
  else none

/-- `Step.__post_init__`: default `fqname` to `name`, reject a step that
sets both or neither of cab and recipe (with a message that does not carry
the name, the source literal lacking its `f`-prefix), reset the binding
state and preset `_skip`.  The conversion of a `DictConfig` params value to
a plain dict and of `tags` to a set are representation details absorbed by
the `Params`/omitted-field modelling. -/
def Step.post_init (s : Step) : Except StimelaErr Step :=
  let s := { s with fqname := if s.fqname ≠ "" then s.fqname else s.name }
  if (truthyOptStr s.cab) = (truthyRecipeField s.recipe) then
    .error (.stepValidation postInitMessage)
  else
    .ok { s with cargo := none, validated_params := none, skipFixed := skipFixedOf s.skip }

/-! ## Cargo binding (`Step.finalize`) -/

/-- Typed instantiation of a recipe value (source lines 146-152): a raw
`DictConfig` is merged over `RecipeSchema` externally (failure wrapped as a
`StepValidationError`), any other non-`Recipe` type is rejected. -/
def instantiateRecipe (stepName : String) : RecipeVal → Except StimelaErr Cargo
  | .typed c => .ok c
  | .raw (some c) => .ok c
  | .raw none => .error (.recipeInstantiation stepName)
  | .other => .error (.recipeTypeError stepName)

/-- Resolution of the `recipe` field to a cargo (source lines 128-153): an
undotted name is looked up in `lib.recipes`, a dotted name via
`resolve_dotted_reference` against the configuration (a nested mapping
found there is a raw `DictConfig` with unmodelled instantiation), and a
direct value is instantiated as is. -/
def resolveRecipe (s : Step) (config : Config) : Except StimelaErr Cargo :=
  match s.recipe with
  | some (.byName n) =>
      if !(containsDot n) then
        match alookup config.lib_recipes n with
        | none => .error (.recipeNotFoundLib s.name n)
        | some rv => instantiateRecipe s.name rv
      else
        match resolve_dotted_reference n config.tree none ("step \x27" ++ s.name ++ "\x27") with
        | .error e => .error (.ref e)
        | .ok (sec, var) =>
            if sec.containsKey var then
              match sec.getKey var with
              | .leaf rv => instantiateRecipe s.name rv
              | .node _ => .error (.recipeInstantiation s.name)
            else .error (.recipeNotFound s.name n)
  | some (.byValue rv) => instantiateRecipe s.name rv
  | none => .error (.internal "no recipe")

/-- The cargo-obtaining part of `finalize` (source lines 128-163): the
recipe branch allocates the resolved recipe object; the cab branch consults
the process-wide cache — a hit allocates a `copy.copy` of the cached
object, a miss constructs the cab from `config.cabs`, caches the new id and
binds that very object. -/
def resolveCargo (s : Step) (config : Config) (w : World) :
    Except StimelaErr (Nat × Cargo × World) :=
  if truthyRecipeField s.recipe then
    match resolveRecipe s config with
    | .error e => .error e
    | .ok c =>
        let (cid, w') := w.alloc c
        .ok (cid, c, w')
  else
    match s.cab with
    | none => .error (.unknownCab s.name none)
    | some cb =>
        match alookup w.instantiated_cabs cb with
        | some cachedId =>
            match heapGet w cachedId with
            | some c =>
                let (cid, w') := w.alloc c
                .ok (cid, c, w')
            | none => .error (.internal "dangling cache entry")
        | none =>
            match alookup config.cabs cb with
            | none => .error (.unknownCab s.name (some cb))
            | some c =>
                let (cid, w') := w.alloc c
                .ok (cid, c, { w' with instantiated_cabs := aset w'.instantiated_cabs cb cid })

/-- The schema part of the defaults dictionary (source lines 178-179):
every `inputs_outputs` entry whose declared default is present and not an
`Unresolved` placeholder. -/
def schemaDefaults (c : Cargo) : Params :=
  c.inputs_outputs.filterMap (fun kv =>
    match kv.2.default with
    | none => none
    | some d => if d = .unresolved then none else some (kv.1, d))

/-- The defaults-merge loop of `finalize` (source lines 183-185): insert
each default whose name is not already a parameter. -/
def applyDefaults (p dfl : Params) : Params :=
  dfl.foldl (fun acc kv => if acontains acc kv.1 then acc else aset acc kv.1 kv.2) p

/-- The binding work of `finalize` on a not-yet-bound step: obtain the
cargo (recipe or cab branch), assign the step's name onto the bound cargo
object, flatten the parameters (delegated to the external cargo, modelled
as the identity), finalize the cargo (external, no modelled effect), build
the defaults dictionary — schema defaults updated with the cargo's own
defaults — and insert every default missing from `params`. -/
def finalizeFresh (s : Step) (config : Config) (w : World) :
    Except StimelaErr (Step × World) :=
  match resolveCargo s config w with
  | .error e => .error e
  | .ok (cid, c, w1) =>
      let c := { c with name := s.name }
      let w2 := heapSet w1 cid c
      let dfl := aupdate (schemaDefaults c) c.defaults
      let sOut := { s with cargo := some cid, defaults := dfl,
                           params := (applyDefaults s.params dfl) }
      .ok (sOut, w2)

/-- `Step.finalize`: a no-op when already bound; otherwise adopt the given
fqname (when one is passed) and perform the binding work. -/
def Step.finalize (s : Step) (config : Config) (w : World) (fqname : Option String) :
    Except StimelaErr (Step × World) :=
  if s.finalized then .ok (s, w)
  else finalizeFresh { s with fqname := fqname.getD s.fqname } config w

/-! ## Prevalidation and the run state machine -/

/-- `Step.prevalidate` (source lines 189-198): finalize, delegate to the
cargo's prevalidation, store the result as `validated_params`, and raise a
`StepValidationError` naming the invalid parameters when any value came
back marked invalid — the skip setting is never consulted here. -/
def Step.prevalidate (s : Step) (config : Config) (w : World) (env : Env) (subst : SubstArg) :
    Except StimelaErr (Step × World × Params) :=
  match Step.finalize s config w none with
  | .error e => .error e
  | .ok (s1, w1) =>
      match s1.cargo with
      | none => .error (.internal "not finalized")
      | some cid =>
          match heapGet w1 cid with
          | none => .error (.internal "cargo missing")
          | some cg =>
              let vp := env.prevalidateCargo cg s1.params subst
              let s2 := { s1 with validated_params := some vp }
              if s2.invalid_params.isEmpty then .ok (s2, w1, vp)
              else .error (.prevalidateInvalid s2.name cg.name s2.invalid_params)

/-- The skip evaluation of `run` (source lines 221-225): use the preset
`_skip` when fixed; otherwise, when a substitution namespace is available,
evaluate the skip expression through the engine (recorded as a
`skipSubstEval` event); with no namespace the undecided skip stays `None`,
which every later boolean position reads as false. -/
def evalSkip (s : Step) (env : Env) (subst : Option Subst) : Bool × List Event :=
  match s.skipFixed with
  | some b => (b, [])
  | none =>
      match subst with
      | some sb => (env.skipEval s.skip sb, [.skipSubstEval])
      | none => (false, [])

/-- The result of `Step.run`: the updated step, world and namespace plus
the final parameter map, or the raised exception. -/
abbrev RunRes := Except StimelaErr (Step × World × Option Subst × Params)

/-- The final invalid-output check of `run` (source lines 326-332):
invalid/unresolved names belonging to the output schema are warnings when
skipping, a `StepValidationError` otherwise. -/
def runFinish (s : Step) (w : World) (cg : Cargo) (skip : Bool) (subst : Option Subst)
    (p : Params) : RunRes × List Event :=
  let invalid := (s.invalid_params ++ s.unresolved_params).filter
      (fun n => cg.outputNames.contains n)
  if invalid.isEmpty then (.ok (s, w, subst, p), [])
  else if skip then (.ok (s, w, subst, p), [.warnInvalidOutputs invalid, .warnNotFatal])
  else (.error (.invalidOutputs invalid), [])

/-- The output-validation phase of `run` (source lines 296-323): on
success merge the result into `validated_params` and into the namespace's
current scope; an engine exception is logged and swallowed when skipping,
re-raised otherwise. -/
def runOutputs (s : Step) (w : World) (env : Env) (cg : Cargo) (skip : Bool)
    (subst : Option Subst) (p : Params) : RunRes × List Event :=
  match env.validate_outputs cg p skip subst with
  | .ok p2 =>
      let s := { s with validated_params := some (aupdate (s.validated_params.getD []) p2) }
      let subst := match subst with
        | some sb => some { sb with current := aupdate sb.current p2 }
        | none => none
      runFinish s w cg skip subst p2
  | .error exc =>
      if skip then
        let (r, tr) := runFinish s w cg skip subst p
        (r, .logOutputError :: .warnNotFatal :: tr)
      else (.error (.scabha exc), [.logOutputError])

/-- The backend selection of `run` (source lines 281-286): the step-local
override, else the cargo-declared backend, else the process-wide default
`stimela.CONFIG.opts.backend`.  (An unknown cargo type, the `RuntimeError`
of line 289, is unrepresentable since `CargoKind` is binary.) -/
def backendOf (s : Step) (cg : Cargo) (config : Config) : String :=
  match s.backend with
  | some b => b
  | none =>
      match cg.backend with
      | some b => b
      | none => config.optsBackend

/-- The dispatch of `run` (source lines 277-294): when not skipping, hand
off to the sub-workflow runner, or select the backend via `backendOf` and
hand off to the task runner; when skipping, log which kind of skip
applied. -/
def runDispatch (s : Step) (w : World) (config : Config) (env : Env) (cg : Cargo)
    (skip : Bool) (subst : Option Subst) (p : Params) : RunRes × List Event :=
  let ev : List Event :=
    if !skip then
      match cg.kind with
      | .recipe => [.runRecipe p]
      | .cab => [.runCab p (backendOf s cg config)]
    else
      [if s.skipFixed = none ∧ subst.isSome then Event.infoSkipExpr else Event.infoSkipExplicit]
  let (r, tr) := runOutputs s w env cg skip subst p
  (r, ev ++ tr)

/-- The namespace publication of `run` (source lines 261-264): when input
validation succeeded and the step is not skipping, the validated map
becomes the namespace's current scope. -/
def substAfterInputs (skip : Bool) (subst : Option Subst) (p : Params)
    (validated : Bool) : Option Subst :=
  if validated && !skip then
    match subst with
    | some sb => some { sb with current := p }
    | none => none
  else subst

/-- The invalid/unresolved bomb-out of `run` (source lines 267-275): raise
a `StepValidationError` naming the offending parameters — except that the
source suppresses the failure based on the truthiness of the raw
`self.skip` string, not the evaluated skip decision — then fall through to
dispatch. -/
def runInvalidCheck (s : Step) (w : World) (config : Config) (env : Env) (cg : Cargo)
    (skip : Bool) (subst : Option Subst) (p : Params) (skipWarned : Bool) :
    RunRes × List Event :=
  if (s.invalid_params ++ s.unresolved_params).isEmpty then
    runDispatch s w config env cg skip subst p
  else if truthyOptStr s.skip then
    ((runDispatch s w config env cg skip subst p).1,
     (Event.warnInvalidInputs (s.invalid_params ++ s.unresolved_params)
       :: (if skipWarned then [] else [Event.warnNotFatal]))
       ++ (runDispatch s w config env cg skip subst p).2)
  else (.error (.invalidInputs s.name (s.invalid_params ++ s.unresolved_params)), [])

/-- The post-input-validation phase of `run` (source lines 258-275): merge
the map into `validated_params`, publish the namespace scope, and perform
the invalid/unresolved check before dispatching. -/
def runAfterInputs (s : Step) (w : World) (config : Config) (env : Env) (cg : Cargo)
    (skip : Bool) (subst : Option Subst) (p : Params) (validated skipWarned : Bool) :
    RunRes × List Event :=
  runInvalidCheck
    { s with validated_params := some (aupdate (s.validated_params.getD []) p) }
    w config env cg skip (substAfterInputs skip subst p validated) p skipWarned

/-- The body of `run` once a bound, prevalidated step is at hand (source
lines 219-334): evaluate skip, overlay the raw parameters on the validated
snapshot, validate inputs — an engine exception is logged, then swallowed
exactly when the raw `self.skip` string is truthy, else re-raised — and
continue through the invalid check, dispatch and output validation. -/
def runCore (s : Step) (config : Config) (w : World) (env : Env) (subst : Option Subst) :
    RunRes × List Event :=
  match s.cargo with
  | none => (.error (.internal "step not finalized"), [])
  | some cid =>
      match heapGet w cid with
      | none => (.error (.internal "cargo missing"), [])
      | some cg =>
          match env.validate_inputs cg (aupdate (s.validated_params.getD []) s.params)
              (evalSkip s env subst).1 subst with
          | .ok p1 =>
              ((runAfterInputs s w config env cg (evalSkip s env subst).1 subst
                  p1 true false).1,
               (evalSkip s env subst).2
                 ++ (runAfterInputs s w config env cg (evalSkip s env subst).1 subst
                      p1 true false).2)
          | .error exc =>
              if truthyOptStr s.skip then
                ((runAfterInputs s w config env cg (evalSkip s env subst).1 subst
                    (aupdate (s.validated_params.getD []) s.params) false true).1,
                 (evalSkip s env subst).2
                   ++ [(if (evalSkip s env subst).1 then Event.logInputErrorWarn
                        else Event.logInputErrorHard), Event.warnNotFatal]
                   ++ (runAfterInputs s w config env cg (evalSkip s env subst).1 subst
                        (aupdate (s.validated_params.getD []) s.params) false true).2)
              else
                (.error (.scabha exc),
                 (evalSkip s env subst).2
                   ++ [(if (evalSkip s env subst).1 then Event.logInputErrorWarn
                        else Event.logInputErrorHard)])

/-- `Step.run`: prevalidate if not yet done (passing the raw parameter
dict positionally as the engine namespace, as the source does), then run
the core lifecycle on the resulting bound step. -/
def Step.run (s : Step) (config : Config) (w : World) (env : Env) (subst : Option Subst) :
    RunRes × List Event :=
  match (match s.validated_params with
         | none => Step.prevalidate s config w env (.raw s.params)
         | some vp => .ok (s, w, vp)) with
  | .error e => (.error e, [])
  | .ok (s1, w1, _) => runCore s1 config w1 env subst

/-! ## Derived observers used by the claims -/

/-- Events that hand off to the external-task or sub-workflow runner. -/
def isDispatch : Event → Bool
  | .runCab _ _ => true
  | .runRecipe _ => true
  | _ => false

/-- `step.cargo.name = x`: overwrite the display name of the step's bound
cargo object on the heap. -/
def setCargoName (w : World) (s : Step) (newName : String) : World :=
  match s.cargo with
  | some i =>
      match heapGet w i with
      | some c => heapSet w i { c with name := newName }
      | none => w
  | none => w

/-- `step.cargo.name`: the display name of the step's bound cargo. -/
def cargoName (w : World) (s : Step) : Option String :=
  (s.cargo.bind (heapGet w)).map (fun c => c.name)

/-! ## Spec-side characterisation of dotted-resolution failure (claim C2) -/

/-- Modelled from the spec (claim C2): the walk of non-final segments fails
at the first segment that is empty (a doubled separator) or not present in
the section being walked. -/
def walkFailsSpec {α : Type} : DictTree α → List String → Bool
  | _, [] => false
  | sec, e :: rest =>
      if e = "" then true
      else if sec.containsKey e then walkFailsSpec (sec.getKey e) rest
      else true

/-- Python falsiness of the optional current section (`not current`). -/
def currentFalsy {α : Type} [PyTruthy α] : Option (DictTree α) → Bool
  | none => true
  | some t => !t.truthy

/-- Modelled from the spec (claim C2 as amended): resolution fails exactly
when the first segment is empty while the current section is absent or
falsy (empty); or the key is the empty string while a truthy current
section is supplied; or the walk of the non-final segments hits an empty
or missing segment.  A key that is exactly the separator with a truthy
current section is not a failure. -/
def refFailsSpec {α : Type} [PyTruthy α] (key : String) (base : DictTree α)
    (current : Option (DictTree α)) : Bool :=
  let path := pySplitDot key
  if path.headD "" ≠ "" then walkFailsSpec base path.dropLast
  else if currentFalsy current then true
  else if path.tail.isEmpty then true
  else walkFailsSpec (current.getD (.node [])) path.tail.dropLast

/-! ## Concrete instances used by the witnesses and counterexamples -/

/-- A nested configuration tree `\x7ba: \x7bb: \x7bc: 1\x7d\x7d\x7d`. -/
def abcTree : DictTree Int :=
  .node [("a", .node [("b", .node [("c", .leaf 1)])])]

/-- A current section `\x7bx: 5\x7d`. -/
def xTree : DictTree Int :=
  .node [("x", .leaf 5)]

/-- An external task with two required inputs and one defaulted input. -/
def copyCab : Cargo :=
  { kind := .cab, name := "copy",
    inputs_outputs := [("src", { required := true }), ("dst", { required := true }),
                       ("mode", { default := some (.int 7) })],
    outputNames := [], defaults := [], backend := none }

/-- A configuration defining the `copy` cab. -/
def demoConfig : Config :=
  { cabs := [("copy", copyCab)], optsBackend := "native" }

/-- A benign engine: validation passes every map through unchanged. -/
def okEnv : Env :=
  { skipEval := fun _ _ => false,
    prevalidateCargo := fun _ p _ => p,
    validate_inputs := fun _ p _ _ => .ok p,
    validate_outputs := fun _ p _ _ => .ok p }

/-- A constructed step targeting the `copy` cab (state as left by
`__post_init__` for `skip = None`). -/
def demoStep : Step :=
  { cab := some "copy", name := "s1", fqname := "s1", skipFixed := some false,
    params := [("src", .str "a"), ("dst", .str "b")] }

/-- `demoStep` after a successful `finalize` against `demoConfig`. -/
def demoStepF : Step :=
  { demoStep with cargo := some 0,
                  params := [("src", .str "a"), ("dst", .str "b"), ("mode", .int 7)],
                  defaults := [("mode", .int 7)] }

/-- The `copy` cab after `finalize` assigned the first demo step's name. -/
def copyCabNamed : Cargo :=
  { copyCab with name := "s1" }

/-- The world after finalizing `demoStep` in an empty world: the cab bound
at id 0 and cached. -/
def demoWorldF : World :=
  { heap := [(0, { copyCab with name := "s1" })],
    instantiated_cabs := [("copy", 0)], nextId := 1 }

/-- A second step targeting the same `copy` cab. -/
def demoStep2 : Step :=
  { demoStep with name := "s2", fqname := "s2" }

/-- `demoStep2` after finalizing in `demoWorldF`: a cache hit binding a
fresh copy at id 1. -/
def demoStep2F : Step :=
  { demoStep2 with cargo := some 1,
                   params := [("src", .str "a"), ("dst", .str "b"), ("mode", .int 7)],
                   defaults := [("mode", .int 7)] }

/-- The world after finalizing both demo steps. -/
def demoWorld2F : World :=
  { heap := [(1, { copyCab with name := "s2" }), (0, { copyCab with name := "s1" })],
    instantiated_cabs := [("copy", 0)], nextId := 2 }

/-- A minimal cab with no declared schema, bound at heap id 0. -/
def plainCab : Cargo :=
  { kind := .cab, name := "c" }

/-- A world holding only `plainCab` at id 0. -/
def plainWorld : World :=
  { heap := [(0, plainCab)], instantiated_cabs := [], nextId := 1 }

/-- An engine whose input validation returns with parameter `x` marked as
the scabha `Error` value (the engine itself does not throw). -/
def invalidXEnv : Env :=
  { okEnv with validate_inputs := fun _ p _ _ => .ok (aset p "x" .error) }

/-- A prevalidated step whose skip expression is the literal `"false"`:
`_skip` was preset to false, so the step is not skipped at runtime, yet the
raw `self.skip` string is truthy. -/
def skipFalseStep : Step :=
  { cab := some "copy", name := "sb", fqname := "sb", skip := some "false",
    skipFixed := some false, cargo := some 0, validated_params := some [] }

/-- A prevalidated step bound to `plainCab`, ready for a `run`. -/
def c8step : Step :=
  { cab := some "copy", name := "s8", fqname := "s8", skipFixed := some false,
    cargo := some 0, validated_params := some [], params := [("src", .str "a")] }

/-- The empty world: no objects bound, no cache entries. -/
def emptyWorld : World :=
  { heap := [], instantiated_cabs := [], nextId := 0 }

/-- A step declared with the literal skip token `"true"`, before
construction runs. -/
def c6step : Step :=
  { cab := some "copy", name := "s6", skip := some "true" }

/-- `c6step` as `__post_init__` leaves it: skip preset to a fixed true. -/
def c6stepP : Step :=
  { cab := some "copy", name := "s6", fqname := "s6", skip := some "true",
    skipFixed := some true }

/-! ## Dictionary lemmas -/

theorem alookup_aset {κ β : Type} [DecidableEq κ] (p : List (κ × β)) (k : κ) (v : β)
    (k' : κ) : alookup (aset p k v) k' = if k' = k then some v else alookup p k' := by
  induction p with
  | nil => simp [aset, alookup]
  | cons kv rest ih =>
      obtain ⟨k0, v0⟩ := kv
      by_cases h : k = k0
      · subst h
        by_cases h' : k' = k <;> simp [aset, alookup, h']
      · by_cases h' : k' = k0
        · subst h'
          have hne : ¬ k' = k := fun he => h he.symm
          simp [aset, alookup, h, hne]
        · simp [aset, alookup, h, h', ih]

theorem acontains_isSome {κ β : Type} [DecidableEq κ] (p : List (κ × β)) (k : κ) :
    acontains p k = (alookup p k).isSome := by
  induction p with
  | nil => simp [acontains, alookup]
  | cons kv rest ih =>
      obtain ⟨k0, v0⟩ := kv
      by_cases h : k = k0 <;> simp [acontains, alookup, h, ih]

theorem alookup_eq_none {κ β : Type} [DecidableEq κ] (p : List (κ × β)) (k : κ)
    (h : k ∉ p.map Prod.fst) : alookup p k = none := by
  induction p with
  | nil => rfl
  | cons kv rest ih =>
      obtain ⟨k0, v0⟩ := kv
      simp only [List.map_cons, List.mem_cons] at h
      push_neg at h
      simp [alookup, h.1, ih h.2]

theorem alookup_aupdate {κ β : Type} [DecidableEq κ] (p other : List (κ × β)) (k : κ)
    (h : (other.map Prod.fst).Nodup) :
    alookup (aupdate p other) k = orElseO (alookup other k) (alookup p k) := by
  induction other generalizing p with
  | nil => cases halo : alookup p k <;> simp [aupdate, alookup, orElseO, halo]
  | cons kv rest ih =>
      obtain ⟨k0, v0⟩ := kv
      simp only [List.map_cons, List.nodup_cons] at h
      have hstep : aupdate p ((k0, v0) :: rest) = aupdate (aset p k0 v0) rest := rfl
      rw [hstep, ih (aset p k0 v0) h.2]
      by_cases hk : k = k0
      · subst hk
        rw [alookup_eq_none rest k h.1]
        simp [alookup, orElseO, alookup_aset]
      · simp [alookup, hk, alookup_aset, orElseO]

theorem alookup_applyDefaults (p d : Params) (k : String) :
    alookup (applyDefaults p d) k = orElseO (alookup p k) (alookup d k) := by
  induction d generalizing p with
  | nil => cases halo : alookup p k <;> simp [applyDefaults, alookup, orElseO, halo]
  | cons kv rest ih =>
      obtain ⟨k0, v0⟩ := kv
      have hstep : applyDefaults p ((k0, v0) :: rest)
          = applyDefaults (if acontains p k0 then p else aset p k0 v0) rest := rfl
      rw [hstep]
      by_cases hc : acontains p k0 = true
      · rw [if_pos hc, ih]
        by_cases hk : k = k0
        · subst hk
          have : (alookup p k).isSome := by rw [← acontains_isSome]; exact hc
          cases halo : alookup p k with
          | none => rw [halo] at this; simp at this
          | some v => simp [alookup, orElseO, halo]
        · simp [alookup, hk]
      · rw [if_neg hc, ih]
        by_cases hk : k = k0
        · subst hk
          have hnone : alookup p k = none := by
            cases halo : alookup p k with
            | none => rfl
            | some v =>
                rw [acontains_isSome, halo] at hc
                simp at hc
          simp [alookup, orElseO, hnone, alookup_aset]
        · simp [alookup, hk, alookup_aset, orElseO]

/-! ## Heap lemmas -/

theorem heapGet_heapSet_self (w : World) (i : Nat) (c : Cargo) :
    heapGet (heapSet w i c) i = some c := by
  simp [heapGet, heapSet, alookup_aset]

theorem heapGet_heapSet_ne (w : World) (i j : Nat) (c : Cargo) (h : j ≠ i) :
    heapGet (heapSet w i c) j = heapGet w j := by
  simp [heapGet, heapSet, alookup_aset, h]

theorem heapGet_alloc_self (w : World) (c : Cargo) :
    heapGet (w.alloc c).2 (w.alloc c).1 = some c := by
  simp [heapGet, World.alloc, alookup]

/-! ## Resolver lemmas -/

theorem walkSections_isErr {α : Type} (ctx key : String) (sec : DictTree α)
    (l : List String) : isErr (walkSections ctx key sec l) = walkFailsSpec sec l := by
  induction l generalizing sec with
  | nil => rfl
  | cons e rest ih =>
      have hws : walkSections ctx key sec (e :: rest)
          = (if e = "" then .error (.doubleDot ctx)
             else if sec.containsKey e then walkSections ctx key (sec.getKey e) rest
             else .error (.notSection ctx e key)) := rfl
      have hwf : walkFailsSpec sec (e :: rest)
          = (if e = "" then true
             else if sec.containsKey e then walkFailsSpec (sec.getKey e) rest
             else true) := rfl
      rw [hws, hwf]
      by_cases he : e = ""
      · simp [he, isErr]
      · by_cases hc : sec.containsKey e = true
        · rw [if_neg he, if_neg he, if_pos hc, if_pos hc]
          exact ih _
        · simp [he, hc, isErr]

theorem walkSections_notSection {α : Type} {ctx key : String} {sec : DictTree α}
    {l : List String} {c e k : String}
    (h : walkSections ctx key sec l = .error (.notSection c e k)) :
    c = ctx ∧ k = key ∧ e ∈ l := by
  induction l generalizing sec with
  | nil => simp [walkSections] at h
  | cons e0 rest ih =>
      unfold walkSections at h
      by_cases h0 : e0 = ""
      · simp [h0] at h
      · by_cases hc : sec.containsKey e0 = true
        · simp [h0, hc] at h
          obtain ⟨h1, h2, h3⟩ := ih h
          exact ⟨h1, h2, List.mem_cons_of_mem _ h3⟩
        · simp [h0, hc] at h
          obtain ⟨h1, h2, h3⟩ := h
          exact ⟨h1.symm, h3.symm, by simp [h2]⟩

theorem currentFalsy_eq {α : Type} [PyTruthy α] (current : Option (DictTree α)) :
    (!(match current with
       | none => false
       | some t => t.truthy)) = currentFalsy current := by
  cases current <;> rfl

theorem isErr_attachName {α : Type} (path : List String)
    (r : Except RefErr (DictTree α)) : isErr (attachName path r) = isErr r := by
  cases r <;> rfl

theorem attachName_error {α : Type} {path : List String}
    {r : Except RefErr (DictTree α)} {err : RefErr}
    (h : attachName path r = .error err) : r = .error err := by
  cases r with
  | error e => simpa [attachName] using h
  | ok v => simp [attachName] at h

theorem isErr_resolveFrom {α : Type} (ctx key : String) (sec : DictTree α)
    (path : List String) :
    isErr (resolveFrom ctx key sec path) = walkFailsSpec sec path.dropLast := by
  unfold resolveFrom
  rw [isErr_attachName, walkSections_isErr]

theorem resolveFrom_notSection {α : Type} {ctx key : String} {sec : DictTree α}
    {path : List String} {c e k : String}
    (h : resolveFrom ctx key sec path = .error (.notSection c e k)) :
    c = ctx ∧ k = key ∧ e ∈ path.dropLast := by
  unfold resolveFrom at h
  exact walkSections_notSection (attachName_error h)

theorem isErr_resolveRelative {α : Type} (ctx key : String)
    (current : Option (DictTree α)) (rest : List String) :
    isErr (resolveRelative ctx key current rest)
      = (if rest.isEmpty then true
         else walkFailsSpec (current.getD (.node [])) rest.dropLast) := by
  cases rest with
  | nil => simp [resolveRelative, isErr]
  | cons r rs => simp [resolveRelative, isErr_resolveFrom]

theorem resolveRelative_notSection {α : Type} {ctx key : String}
    {current : Option (DictTree α)} {rest : List String} {c e k : String}
    (h : resolveRelative ctx key current rest = .error (.notSection c e k)) :
    c = ctx ∧ k = key ∧ e ∈ rest.dropLast := by
  cases rest with
  | nil => simp [resolveRelative] at h
  | cons r rs => exact resolveFrom_notSection h

/-! ## Structural lemmas on finalize -/

theorem resolveCargo_spec {s : Step} {config : Config} {w : World} {cid : Nat}
    {c : Cargo} {w1 : World}
    (h : resolveCargo s config w = .ok (cid, c, w1)) :
    cid = w.nextId ∧ w1.nextId = w.nextId + 1 ∧ heapGet w1 cid = some c := by
  unfold resolveCargo at h
  by_cases hr : truthyRecipeField s.recipe = true
  · rw [if_pos hr] at h
    cases hrr : resolveRecipe s config with
    | error e => rw [hrr] at h; exact absurd h (by simp)
    | ok c0 =>
        rw [hrr] at h
        simp only [World.alloc, Except.ok.injEq, Prod.mk.injEq] at h
        obtain ⟨h1, h2, h3⟩ := h
        subst h1 h2 h3
        refine ⟨rfl, rfl, ?_⟩
        simp [heapGet, alookup]
  · rw [if_neg hr] at h
    cases hcab : s.cab with
    | none => simp [hcab] at h
    | some cb =>
        simp only [hcab] at h
        cases hcache : alookup w.instantiated_cabs cb with
        | some cachedId =>
            simp only [hcache] at h
            cases hhg : heapGet w cachedId with
            | none => simp [hhg] at h
            | some c1 =>
                simp only [hhg, World.alloc, Except.ok.injEq, Prod.mk.injEq] at h
                obtain ⟨h1, h2, h3⟩ := h
                subst h1 h2 h3
                refine ⟨rfl, rfl, ?_⟩
                simp [heapGet, alookup]
        | none =>
            simp only [hcache] at h
            cases hcfg : alookup config.cabs cb with
            | none => simp [hcfg] at h
            | some c2 =>
                simp only [hcfg, World.alloc, Except.ok.injEq, Prod.mk.injEq] at h
                obtain ⟨h1, h2, h3⟩ := h
                subst h1 h2 h3
                refine ⟨rfl, rfl, ?_⟩
                simp [heapGet, alookup]

theorem finalizeFresh_shape {s : Step} {config : Config} {w : World} {s' : Step}
    {w' : World} (h : finalizeFresh s config w = .ok (s', w')) :
    ∃ cid c w1, resolveCargo s config w = .ok (cid, c, w1)
      ∧ s'.cargo = some cid
      ∧ s'.defaults = aupdate (schemaDefaults c) c.defaults
      ∧ s'.params = applyDefaults s.params s'.defaults
      ∧ s'.name = s.name ∧ s'.skip = s.skip ∧ s'.skipFixed = s.skipFixed
      ∧ s'.cab = s.cab ∧ s'.recipe = s.recipe ∧ s'.backend = s.backend
      ∧ s'.validated_params = s.validated_params
      ∧ w' = heapSet w1 cid { c with name := s.name } := by
  unfold finalizeFresh at h
  cases hrc : resolveCargo s config w with
  | error e => simp [hrc] at h
  | ok t =>
      obtain ⟨cid, c, w1⟩ := t
      simp only [hrc, Except.ok.injEq, Prod.mk.injEq] at h
      obtain ⟨h1, h2⟩ := h
      subst h2
      refine ⟨cid, c, w1, rfl, ?_⟩
      rw [← h1]
      have hsd : schemaDefaults { c with name := s.name } = schemaDefaults c := rfl
      have hcd : ({ c with name := s.name } : Cargo).defaults = c.defaults := rfl
      simp [hsd, hcd]

theorem finalize_none_eq {s : Step} {config : Config} {w : World}
    (hnf : s.cargo = none) :
    Step.finalize s config w none = finalizeFresh s config w := by
  have hf : s.finalized = false := by simp [Step.finalized, hnf]
  simp only [Step.finalize, hf, Bool.false_eq_true, if_false, Option.getD]

theorem finalize_ok_finalized {s : Step} {config : Config} {w : World} {fq : Option String}
    {s' : Step} {w' : World} (h : Step.finalize s config w fq = .ok (s', w')) :
    s'.finalized = true := by
  unfold Step.finalize at h
  by_cases hf : s.finalized = true
  · rw [if_pos hf] at h
    simp only [Except.ok.injEq, Prod.mk.injEq] at h
    rw [← h.1]
    exact hf
  · rw [if_neg hf] at h
    obtain ⟨cid, c, w1, _, hc, _⟩ := finalizeFresh_shape h
    simp [Step.finalized, hc]

theorem finalize_skipFixed {s : Step} {config : Config} {w : World} {fq : Option String}
    {s' : Step} {w' : World} (h : Step.finalize s config w fq = .ok (s', w')) :
    s'.skipFixed = s.skipFixed ∧ s'.skip = s.skip ∧ s'.cab = s.cab
      ∧ s'.recipe = s.recipe ∧ s'.backend = s.backend ∧ s'.name = s.name
      ∧ s'.validated_params = s.validated_params := by
  unfold Step.finalize at h
  by_cases hf : s.finalized = true
  · rw [if_pos hf] at h
    simp only [Except.ok.injEq, Prod.mk.injEq] at h
    rw [← h.1]
    exact ⟨rfl, rfl, rfl, rfl, rfl, rfl, rfl⟩
  · rw [if_neg hf] at h
    obtain ⟨cid, c, w1, _, _, _, _, hn, hsk, hsf, hcb, hrc, hbk, hvp, _⟩ := finalizeFresh_shape h
    exact ⟨hsf, hsk, hcb, hrc, hbk, hn, hvp⟩

/-! ## Structural lemmas on the run phases -/

theorem runFinish_ok {s : Step} {w : World} {cg : Cargo} {skip : Bool}
    {subst : Option Subst} {p : Params} {t : Step} {w' : World} {sb' : Option Subst}
    {p' : Params} {tr : List Event}
    (h : runFinish s w cg skip subst p = (.ok (t, w', sb', p'), tr)) :
    t = s ∧ w' = w := by
  simp only [runFinish] at h
  repeat' split at h
  all_goals simp only [Prod.mk.injEq, Except.ok.injEq] at h
  · exact ⟨h.1.1.symm, h.1.2.1.symm⟩
  · exact ⟨h.1.1.symm, h.1.2.1.symm⟩
  · exact absurd h.1 (by simp)

theorem runFinish_no_eval (s : Step) (w : World) (cg : Cargo) (skip : Bool)
    (subst : Option Subst) (p : Params) :
    Event.skipSubstEval ∉ (runFinish s w cg skip subst p).2 := by
  simp only [runFinish]
  repeat' split
  all_goals simp

theorem runFinish_no_dispatch (s : Step) (w : World) (cg : Cargo) (skip : Bool)
    (subst : Option Subst) (p : Params) :
    ((runFinish s w cg skip subst p).2).filter isDispatch = [] := by
  simp only [runFinish]
  repeat' split
  all_goals simp [isDispatch]

theorem runOutputs_ok {s : Step} {w : World} {env : Env} {cg : Cargo} {skip : Bool}
    {subst : Option Subst} {p : Params} {t : Step} {w' : World} {sb' : Option Subst}
    {p' : Params} {tr : List Event}
    (h : runOutputs s w env cg skip subst p = (.ok (t, w', sb', p'), tr)) :
    t.skipFixed = s.skipFixed
      ∧ (t.validated_params.isSome = true ∨ t.validated_params = s.validated_params)
      ∧ w' = w := by
  unfold runOutputs at h
  cases hv : env.validate_outputs cg p skip subst with
  | ok p2 =>
      simp only [hv] at h
      obtain ⟨ht, hw⟩ := runFinish_ok h
      subst ht
      exact ⟨rfl, Or.inl (by simp), hw⟩
  | error exc =>
      simp only [hv] at h
      by_cases hs : skip = true
      · rw [if_pos hs] at h
        rcases hrf : runFinish s w cg skip subst p with ⟨r0, tr0⟩
        simp only [hrf] at h
        simp only [Prod.mk.injEq] at h
        rw [h.1] at hrf
        obtain ⟨ht, hw⟩ := runFinish_ok hrf
        subst ht
        exact ⟨rfl, Or.inr rfl, hw⟩
      · rw [if_neg hs] at h
        simp at h

theorem runOutputs_no_eval (s : Step) (w : World) (env : Env) (cg : Cargo) (skip : Bool)
    (subst : Option Subst) (p : Params) :
    Event.skipSubstEval ∉ (runOutputs s w env cg skip subst p).2 := by
  unfold runOutputs
  cases hv : env.validate_outputs cg p skip subst with
  | ok p2 => exact runFinish_no_eval _ _ _ _ _ _
  | error exc =>
      rcases hrf : runFinish s w cg skip subst p with ⟨r0, tr0⟩
      have hne := runFinish_no_eval s w cg skip subst p
      rw [hrf] at hne
      cases skip <;> simp [hv, hrf, hne]

theorem runOutputs_no_dispatch (s : Step) (w : World) (env : Env) (cg : Cargo)
    (skip : Bool) (subst : Option Subst) (p : Params) :
    ((runOutputs s w env cg skip subst p).2).filter isDispatch = [] := by
  unfold runOutputs
  cases hv : env.validate_outputs cg p skip subst with
  | ok p2 => exact runFinish_no_dispatch _ _ _ _ _ _
  | error exc =>
      rcases hrf : runFinish s w cg skip subst p with ⟨r0, tr0⟩
      have hnd := runFinish_no_dispatch s w cg skip subst p
      rw [hrf] at hnd
      cases skip <;> simp [hv, hrf, hnd, isDispatch]

theorem runDispatch_ok {s : Step} {w : World} {config : Config} {env : Env} {cg : Cargo}
    {skip : Bool} {subst : Option Subst} {p : Params} {t : Step} {w' : World}
    {sb' : Option Subst} {p' : Params} {tr : List Event}
    (h : runDispatch s w config env cg skip subst p = (.ok (t, w', sb', p'), tr)) :
    t.skipFixed = s.skipFixed
      ∧ (t.validated_params.isSome = true ∨ t.validated_params = s.validated_params)
      ∧ w' = w := by
  unfold runDispatch at h
  rcases hro : runOutputs s w env cg skip subst p with ⟨r0, tr0⟩
  simp only [hro, Prod.mk.injEq] at h
  rw [h.1] at hro
  exact runOutputs_ok hro

theorem runDispatch_no_eval (s : Step) (w : World) (config : Config) (env : Env)
    (cg : Cargo) (skip : Bool) (subst : Option Subst) (p : Params) :
    Event.skipSubstEval ∉ (runDispatch s w config env cg skip subst p).2 := by
  unfold runDispatch
  rcases hro : runOutputs s w env cg skip subst p with ⟨r0, tr0⟩
  have hne := runOutputs_no_eval s w env cg skip subst p
  rw [hro] at hne
  cases skip
  · cases hk : cg.kind <;> simp [hro, hne]
  · by_cases he : s.skipFixed = none ∧ subst.isSome = true <;> simp [hro, hne, he]

theorem runInvalidCheck_ok {s : Step} {w : World} {config : Config} {env : Env}
    {cg : Cargo} {skip : Bool} {subst : Option Subst} {p : Params} {skipWarned : Bool}
    {t : Step} {w' : World} {sb' : Option Subst} {p' : Params} {tr : List Event}
    (h : runInvalidCheck s w config env cg skip subst p skipWarned
          = (.ok (t, w', sb', p'), tr)) :
    t.skipFixed = s.skipFixed
      ∧ (t.validated_params.isSome = true ∨ t.validated_params = s.validated_params)
      ∧ w' = w := by
  unfold runInvalidCheck at h
  split at h
  · exact runDispatch_ok h
  · split at h
    · simp only [Prod.mk.injEq] at h
      rcases hrd : runDispatch s w config env cg skip subst p with ⟨r0, tr0⟩
      rw [hrd] at h
      have h1 : r0 = Except.ok (t, w', sb', p') := by simpa using h.1
      rw [h1] at hrd
      exact runDispatch_ok hrd
    · simp at h

theorem runInvalidCheck_no_eval (s : Step) (w : World) (config : Config) (env : Env)
    (cg : Cargo) (skip : Bool) (subst : Option Subst) (p : Params) (skipWarned : Bool) :
    Event.skipSubstEval ∉
      (runInvalidCheck s w config env cg skip subst p skipWarned).2 := by
  unfold runInvalidCheck
  have hne := runDispatch_no_eval s w config env cg skip subst p
  split
  · exact hne
  · split
    · by_cases hw : skipWarned = true <;> simp [hw, hne]
    · simp

theorem runAfterInputs_ok {s : Step} {w : World} {config : Config} {env : Env}
    {cg : Cargo} {skip : Bool} {subst : Option Subst} {p : Params}
    {validated skipWarned : Bool} {t : Step} {w' : World} {sb' : Option Subst}
    {p' : Params} {tr : List Event}
    (h : runAfterInputs s w config env cg skip subst p validated skipWarned
          = (.ok (t, w', sb', p'), tr)) :
    t.skipFixed = s.skipFixed ∧ t.validated_params.isSome = true ∧ w' = w := by
  unfold runAfterInputs at h
  obtain ⟨h1, h2, h3⟩ := runInvalidCheck_ok h
  refine ⟨h1, ?_, h3⟩
  rcases h2 with h2 | h2
  · exact h2
  · rw [h2]; simp

theorem runAfterInputs_no_eval (s : Step) (w : World) (config : Config) (env : Env)
    (cg : Cargo) (skip : Bool) (subst : Option Subst) (p : Params)
    (validated skipWarned : Bool) :
    Event.skipSubstEval ∉
      (runAfterInputs s w config env cg skip subst p validated skipWarned).2 := by
  unfold runAfterInputs
  exact runInvalidCheck_no_eval _ _ _ _ _ _ _ _ _

theorem prevalidate_ok {s : Step} {config : Config} {w : World} {env : Env}
    {subst : SubstArg} {t : Step} {w1 : World} {vp : Params}
    (h : Step.prevalidate s config w env subst = .ok (t, w1, vp)) :
    t.skipFixed = s.skipFixed ∧ t.skip = s.skip ∧ t.validated_params = some vp := by
  unfold Step.prevalidate at h
  cases hf : Step.finalize s config w none with
  | error e => simp [hf] at h
  | ok r =>
      obtain ⟨s1, w1'⟩ := r
      simp only [hf] at h
      cases hc : s1.cargo with
      | none => simp [hc] at h
      | some cid =>
          simp only [hc] at h
          cases hg : heapGet w1' cid with
          | none => simp [hg] at h
          | some cg =>
              simp only [hg] at h
              split at h
              · simp only [Except.ok.injEq, Prod.mk.injEq] at h
                obtain ⟨ht, _, hvp⟩ := h
                have hsf := finalize_skipFixed hf
                rw [← ht, ← hvp]
                exact ⟨hsf.1, hsf.2.1, rfl⟩
              · simp at h

theorem runCore_ok {s : Step} {config : Config} {w : World} {env : Env}
    {subst : Option Subst} {t : Step} {wo : World} {so : Option Subst} {po : Params}
    {tr : List Event}
    (h : runCore s config w env subst = (.ok (t, wo, so, po), tr)) :
    t.skipFixed = s.skipFixed ∧ t.validated_params.isSome = true ∧ wo = w := by
  unfold runCore at h
  cases hc : s.cargo with
  | none => simp [hc] at h
  | some cid =>
      simp only [hc] at h
      cases hg : heapGet w cid with
      | none => simp [hg] at h
      | some cg =>
          simp only [hg] at h
          cases hv : env.validate_inputs cg (aupdate (s.validated_params.getD []) s.params)
              (evalSkip s env subst).1 subst with
          | ok p1 =>
              simp only [hv, Prod.mk.injEq] at h
              rcases hrai : runAfterInputs s w config env cg (evalSkip s env subst).1 subst
                  p1 true false with ⟨r0, tr0⟩
              rw [hrai] at h
              have h1 : r0 = Except.ok (t, wo, so, po) := by simpa using h.1
              rw [h1] at hrai
              exact runAfterInputs_ok hrai
          | error exc =>
              simp only [hv] at h
              by_cases hts : truthyOptStr s.skip = true
              · rw [if_pos hts] at h
                simp only [Prod.mk.injEq] at h
                rcases hrai : runAfterInputs s w config env cg (evalSkip s env subst).1 subst
                    (aupdate (s.validated_params.getD []) s.params) false true with ⟨r0, tr0⟩
                rw [hrai] at h
                have h1 : r0 = Except.ok (t, wo, so, po) := by simpa using h.1
                rw [h1] at hrai
                exact runAfterInputs_ok hrai
              · rw [if_neg hts] at h
                simp at h

theorem run_ok_state {s : Step} {config : Config} {w : World} {env : Env}
    {subst : Option Subst} {t : Step} {wo : World} {so : Option Subst} {po : Params}
    {tr : List Event}
    (h : Step.run s config w env subst = (.ok (t, wo, so, po), tr)) :
    t.skipFixed = s.skipFixed ∧ t.validated_params.isSome = true := by
  unfold Step.run at h
  cases hvp : s.validated_params with
  | none =>
      simp only [hvp] at h
      cases hpre : Step.prevalidate s config w env (.raw s.params) with
      | error e => simp [hpre] at h
      | ok r =>
          obtain ⟨s1, w1, vp⟩ := r
          simp only [hpre] at h
          obtain ⟨h1, _, _⟩ := prevalidate_ok hpre
          obtain ⟨g1, g2, _⟩ := runCore_ok h
          exact ⟨g1.trans h1, g2⟩
  | some vp =>
      simp only [hvp] at h
      obtain ⟨g1, g2, _⟩ := runCore_ok h
      exact ⟨g1, g2⟩

theorem runCore_no_eval {s : Step} (config : Config) (w : World) (env : Env)
    (subst : Option Subst) (hsf : s.skipFixed.isSome = true) :
    Event.skipSubstEval ∉ (runCore s config w env subst).2 := by
  unfold runCore
  cases hc : s.cargo with
  | none => simp [hc]
  | some cid =>
      simp only [hc]
      cases hg : heapGet w cid with
      | none => simp [hg]
      | some cg =>
          simp only [hg]
          cases hb : s.skipFixed with
          | none => rw [hb] at hsf; simp at hsf
          | some b =>
              have hek : evalSkip s env subst = (b, []) := by simp [evalSkip, hb]
              cases hv : env.validate_inputs cg
                  (aupdate (s.validated_params.getD []) s.params)
                  (evalSkip s env subst).1 subst with
              | ok p1 =>
                  have hne2 := runAfterInputs_no_eval s w config env cg b subst p1 true false
                  simp [hv, hek, hne2]
              | error exc =>
                  have hne := runAfterInputs_no_eval s w config env cg b subst
                      (aupdate (s.validated_params.getD []) s.params) false true
                  by_cases hts : truthyOptStr s.skip = true <;>
                    cases b <;> simp [hv, hek, hts, hne]

theorem run_no_eval {s : Step} (config : Config) (w : World) (env : Env)
    (subst : Option Subst) (hsf : s.skipFixed.isSome = true) :
    Event.skipSubstEval ∉ (Step.run s config w env subst).2 := by
  unfold Step.run
  cases hvp : s.validated_params with
  | none =>
      cases hpre : Step.prevalidate s config w env (.raw s.params) with
      | error e => simp [hpre]
      | ok r =>
          obtain ⟨s1, w1, vp⟩ := r
          have h1 := (prevalidate_ok hpre).1
          have : s1.skipFixed.isSome = true := by rw [h1]; exact hsf
          simp only [hpre]
          exact runCore_no_eval config w1 env subst this
  | some vp =>
      simp only
      exact runCore_no_eval config w env subst hsf

theorem runCore_trace_head {s : Step} (config : Config) (w : World) (env : Env)
    (sb : Subst) {cid : Nat} {cg : Cargo}
    (hsf : s.skipFixed = none) (hc : s.cargo = some cid) (hg : heapGet w cid = some cg) :
    ∃ rest, (runCore s config w env (some sb)).2 = Event.skipSubstEval :: rest := by
  unfold runCore
  have hek : evalSkip s env (some sb) = (env.skipEval s.skip sb, [.skipSubstEval]) := by
    simp [evalSkip, hsf]
  simp only [hc, hg, hek]
  cases hv : env.validate_inputs cg (aupdate (s.validated_params.getD []) s.params)
      (env.skipEval s.skip sb) (some sb) with
  | ok p1 => simp [hv]
  | error exc =>
      by_cases hts : truthyOptStr s.skip = true <;> simp [hv, hts]

theorem evalSkip_no_dispatch (s : Step) (env : Env) (subst : Option Subst) :
    ((evalSkip s env subst).2).filter isDispatch = [] := by
  unfold evalSkip
  cases s.skipFixed
  · cases subst <;> simp [isDispatch]
  · simp

theorem runDispatch_cab_filter (s : Step) (w : World) (config : Config) (env : Env)
    (cg : Cargo) (subst : Option Subst) (p : Params) (hk : cg.kind = .cab) :
    ((runDispatch s w config env cg false subst p).2).filter isDispatch
      = [Event.runCab p (backendOf s cg config)] := by
  unfold runDispatch
  rcases hro : runOutputs s w env cg false subst p with ⟨r0, tr0⟩
  have hnd := runOutputs_no_dispatch s w env cg false subst p
  rw [hro] at hnd
  simp [hk, hro, hnd, isDispatch]

theorem runInvalidCheck_cab_filter (s : Step) (w : World) (config : Config) (env : Env)
    (cg : Cargo) (subst : Option Subst) (p : Params) (skipWarned : Bool)
    (hk : cg.kind = .cab)
    (hok : (s.invalid_params ++ s.unresolved_params).isEmpty = true
           ∨ truthyOptStr s.skip = true) :
    ((runInvalidCheck s w config env cg false subst p skipWarned).2).filter isDispatch
      = [Event.runCab p (backendOf s cg config)] := by
  unfold runInvalidCheck
  split
  · exact runDispatch_cab_filter s w config env cg subst p hk
  · split
    · rcases hrd : runDispatch s w config env cg false subst p with ⟨r0, tr0⟩
      have hfd := runDispatch_cab_filter s w config env cg subst p hk
      rw [hrd] at hfd
      by_cases hw : skipWarned = true <;> simp [hrd, hfd, isDispatch, hw]
    · rcases hok with hok | hok
      · simp_all
      · simp_all

theorem runAfterInputs_cab_filter (s : Step) (w : World) (config : Config) (env : Env)
    (cg : Cargo) (subst : Option Subst) (p : Params) (validated skipWarned : Bool)
    (hk : cg.kind = .cab)
    (hok : ((invalidOf (aupdate (s.validated_params.getD []) p))
            ++ (unresolvedOf (aupdate (s.validated_params.getD []) p))).isEmpty = true
           ∨ truthyOptStr s.skip = true) :
    ((runAfterInputs s w config env cg false subst p validated skipWarned).2).filter
        isDispatch
      = [Event.runCab p (backendOf s cg config)] := by
  unfold runAfterInputs
  have h := runInvalidCheck_cab_filter
      { s with validated_params := some (aupdate (s.validated_params.getD []) p) }
      w config env cg (substAfterInputs false subst p validated) p skipWarned hk
      (by simpa [Step.invalid_params, Step.unresolved_params] using hok)
  simpa [backendOf] using h

theorem runCore_cab_filter {s : Step} {config : Config} {w : World} {env : Env}
    {subst : Option Subst} {cid : Nat} {cg : Cargo} {p1 : Params}
    (hc : s.cargo = some cid) (hg : heapGet w cid = some cg) (hk : cg.kind = .cab)
    (hskip : (evalSkip s env subst).1 = false)
    (hv : env.validate_inputs cg (aupdate (s.validated_params.getD []) s.params)
            false subst = .ok p1)
    (hok : ((invalidOf (aupdate (s.validated_params.getD []) p1))
            ++ (unresolvedOf (aupdate (s.validated_params.getD []) p1))).isEmpty = true
           ∨ truthyOptStr s.skip = true) :
    ((runCore s config w env subst).2).filter isDispatch
      = [Event.runCab p1 (backendOf s cg config)] := by
  unfold runCore
  rcases hek : evalSkip s env subst with ⟨sk, trS⟩
  have hsk : sk = false := by rw [hek] at hskip; exact hskip
  subst hsk
  have htrS := evalSkip_no_dispatch s env subst
  rw [hek] at htrS
  have hfa := runAfterInputs_cab_filter s w config env cg subst p1 true false hk hok
  simp only [hc, hg, hek, hv]
  simp [List.filter_append, htrS, hfa]

theorem isErr_wrap {ε β γ : Type} (r : Except ε β) (f : β → γ) :
    isErr (match r with
           | .error e => Except.error e
           | .ok v => Except.ok (f v)) = isErr r := by
  cases r <;> rfl

theorem error_of_wrap {ε β γ : Type} {r : Except ε β} {f : β → γ} {err : ε}
    (h : (match r with
          | .error e => Except.error e
          | .ok v => Except.ok (f v)) = Except.error err) : r = .error err := by
  cases r with
  | error e => simpa using h
  | ok v => simp at h

/-! ## Claim theorems -/

/-- C3: resolving `a.b.c` against `\x7ba: \x7bb: \x7bc: 1\x7d\x7d\x7d` with no
current section returns the section containing key `c` — i.e. the pair
`(base[a][b], "c")`; resolving `.x` with current section `\x7bx: 5\x7d`
returns `(current, "x")`; and the final name need not exist: `a.b.q`
returns `(base[a][b], "q")`. -/
theorem C3_dotted_resolution :
    resolve_dotted_reference "a.b.c" abcTree none "ctx"
      = .ok (.node [("c", .leaf 1)], "c")
    ∧ resolve_dotted_reference ".x" (DictTree.node []) (some xTree) "ctx"
      = .ok (xTree, "x")
    ∧ resolve_dotted_reference "a.b.q" abcTree none "ctx"
      = .ok (.node [("c", .leaf 1)], "q") :=
  ⟨rfl, rfl, rfl⟩

/-- C2 counterexample: the claim says a key that is exactly the separator
fails with a `ReferenceError` (case (c)); the code instead succeeds when a
nonempty current section is supplied, returning that section with an empty
final name. -/
theorem C2_counterexample :
    resolve_dotted_reference "." (DictTree.node ([] : List (String × DictTree Int)))
        (some xTree) "ctx"
      = .ok (xTree, "") :=
  rfl

/-- C2 (amended): dotted-reference resolution fails exactly when (a) the
first segment is empty and the current section is absent or falsy (empty),
(b) the key is the empty string while a truthy current section is supplied,
(d) a non-final segment of the walked path is empty, or (e) a non-final
segment is missing from the section being walked (the walk stopping at the
first empty or missing segment); a key that is exactly the separator with a
truthy current section succeeds.  In case (e) the raised error names the
missing segment (a segment of the key) and the offending key. -/
theorem C2_resolution_failure {α : Type} [PyTruthy α] (key : String) (base : DictTree α)
    (current : Option (DictTree α)) (ctx : String) :
    isErr (resolve_dotted_reference key base current ctx) = refFailsSpec key base current
    ∧ ∀ c e k, resolve_dotted_reference key base current ctx = .error (.notSection c e k) →
        c = ctx ∧ k = key ∧ e ∈ pySplitDot key := by
  unfold resolve_dotted_reference refFailsSpec
  cases hs : pySplitDot key with
  | nil =>
      constructor
      · simp [isErr]
      · intro c e k h
        simp at h
  | cons p0 rest =>
      simp only [List.headD_cons, List.tail_cons]
      rw [currentFalsy_eq]
      by_cases hp : p0 = ""
      · subst hp
        simp only [ne_eq, not_true_eq_false, if_false]
        by_cases hcf : currentFalsy current = true
        · rw [if_pos hcf, if_pos hcf]
          refine ⟨by simp [isErr], ?_⟩
          intro c e k h
          simp at h
        · rw [if_neg hcf, if_neg hcf]
          constructor
          · exact isErr_resolveRelative ctx key current rest
          · intro c e k h
            obtain ⟨g1, g2, g3⟩ := resolveRelative_notSection h
            exact ⟨g1, g2, List.mem_cons_of_mem _ (List.dropLast_subset _ g3)⟩
      · rw [if_pos hp, if_pos hp]
        constructor
        · exact isErr_resolveFrom ctx key base (p0 :: rest)
        · intro c e k h
          obtain ⟨g1, g2, g3⟩ := resolveFrom_notSection h
          exact ⟨g1, g2, List.dropLast_subset _ g3⟩

/-- C2 witness: the characterisation applied at the concrete inputs of the
spec examples: `..` with a current section, a missing intermediate
segment, and a leading dot with no current section. -/
theorem C2_witness :
    (isErr (resolve_dotted_reference ".." abcTree (some xTree) "ctx")
       = refFailsSpec ".." abcTree (some xTree)
     ∧ ∀ c e k, resolve_dotted_reference ".." abcTree (some xTree) "ctx"
         = .error (.notSection c e k) → c = "ctx" ∧ k = ".." ∧ e ∈ pySplitDot "..")
    ∧ (isErr (resolve_dotted_reference "a.q.c" abcTree none "ctx")
       = refFailsSpec "a.q.c" abcTree none
     ∧ ∀ c e k, resolve_dotted_reference "a.q.c" abcTree none "ctx"
         = .error (.notSection c e k) → c = "ctx" ∧ k = "a.q.c" ∧ e ∈ pySplitDot "a.q.c")
    ∧ (isErr (resolve_dotted_reference ".x" abcTree none "ctx")
       = refFailsSpec ".x" abcTree none
     ∧ ∀ c e k, resolve_dotted_reference ".x" abcTree none "ctx"
         = .error (.notSection c e k) → c = "ctx" ∧ k = ".x" ∧ e ∈ pySplitDot ".x") :=
  ⟨C2_resolution_failure ".." abcTree (some xTree) "ctx",
   C2_resolution_failure "a.q.c" abcTree none "ctx",
   C2_resolution_failure ".x" abcTree none "ctx"⟩

/-- C1 divergence witness: a step whose skip expression is the literal
`"false"` is not being skipped (its preset `_skip` is false), and input
validation leaves parameter `x` invalid; the claim requires `run` to raise
`StepValidationError` and never invoke the task runner, but the code tests
the truthiness of the raw `self.skip` string (source line 269), so it only
logs two warnings, completes without raising, and invokes the task runner
once with the invalid parameter map. -/
theorem C1_divergence :
    Step.run skipFalseStep demoConfig plainWorld invalidXEnv none
      = (.ok ({ skipFalseStep with validated_params := some [("x", PValue.error)] },
              plainWorld, none, [("x", PValue.error)]),
         [.warnInvalidInputs ["x"], .warnNotFatal,
          .runCab [("x", PValue.error)] "native"]) :=
  rfl

/-- C9 divergence witness: constructing a step with both targets set (or
with neither) does fail deterministically with a `StepValidationError`
before any binding work, but the raised message is the same constant
template for every step name — the source string on line 49 lacks its
`f`-prefix, so the error does not carry the step's name as the claim
requires. -/
theorem C9_divergence :
    (∀ n : String,
      Step.post_init { name := n, cab := some "x", recipe := some (.byValue .other) }
        = .error (.stepValidation postInitMessage))
    ∧ (∀ n : String,
      Step.post_init { name := n } = .error (.stepValidation postInitMessage)) := by
  constructor <;> intro n <;> rfl

/-- C4: a second `finalize` after a successful one is a no-op: whatever
configuration, cache/heap state and fqname the second call is given, it
returns the very same step (same bound cargo id, same params) and leaves
the world untouched (no cache insertion). -/
theorem C4_finalize_idempotent (s : Step) (config : Config) (w : World)
    (fq : Option String) (s' : Step) (w' : World)
    (h : Step.finalize s config w fq = .ok (s', w')) :
    ∀ (config2 : Config) (w2 : World) (fq2 : Option String),
      Step.finalize s' config2 w2 fq2 = .ok (s', w2) := by
  intro config2 w2 fq2
  have hfin := finalize_ok_finalized h
  unfold Step.finalize
  rw [if_pos hfin]

/-- C4 witness: finalizing the demo step binds it, and a second call on the
result is the identity. -/
theorem C4_witness :
    Step.finalize demoStepF demoConfig demoWorldF none = .ok (demoStepF, demoWorldF) :=
  C4_finalize_idempotent demoStep demoConfig emptyWorld none demoStepF demoWorldF rfl
    demoConfig demoWorldF none

/-- C5: after a successful first `finalize`, the value of a parameter is the
caller-supplied one when one was supplied, else the merged default; and the
merged defaults give the cargo's own defaults mapping precedence over the
schema-declared defaults (those present and not `Unresolved`). -/
theorem C5_defaults_merge (s : Step) (config : Config) (w : World) (s' : Step)
    (w' : World) (cid : Nat) (cg : Cargo)
    (hnf : s.cargo = none)
    (h : Step.finalize s config w none = .ok (s', w'))
    (hcid : s'.cargo = some cid)
    (hcg : heapGet w' cid = some cg)
    (hnd : (cg.defaults.map Prod.fst).Nodup) :
    ∀ name : String,
      alookup s'.params name = orElseO (alookup s.params name) (alookup s'.defaults name)
      ∧ alookup s'.defaults name
          = orElseO (alookup cg.defaults name) (alookup (schemaDefaults cg) name) := by
  rw [finalize_none_eq hnf] at h
  obtain ⟨cid0, c, w1, hrc, hc0, hdf, hpar, _, _, _, _, _, _, _, hw⟩ := finalizeFresh_shape h
  have hcc : cid0 = cid := by
    have := hc0.symm.trans hcid
    exact Option.some.inj this
  subst hcc
  have hw' : heapGet w' cid0 = some { c with name := s.name } := by
    rw [hw]
    exact heapGet_heapSet_self w1 cid0 _
  have hcgc : cg = { c with name := s.name } := by
    rw [hw'] at hcg
    exact (Option.some.inj hcg).symm
  have hcd : cg.defaults = c.defaults := by rw [hcgc]
  have hsd : schemaDefaults cg = schemaDefaults c := by rw [hcgc]; rfl
  intro name
  constructor
  · rw [hpar, alookup_applyDefaults]
  · rw [hdf, hcd, hsd]
    exact alookup_aupdate _ _ _ (by rw [← hcd]; exact hnd)

/-- C5 witness: the demo cab declares a schema default `mode = 7` and the
caller supplies `src`; after finalize, `src` keeps its supplied value,
`mode` receives the default, and an undeclared name stays absent. -/
theorem C5_witness :
    (alookup demoStepF.params "src"
        = orElseO (alookup demoStep.params "src") (alookup demoStepF.defaults "src")
      ∧ alookup demoStepF.defaults "src"
        = orElseO (alookup copyCabNamed.defaults "src")
            (alookup (schemaDefaults copyCabNamed) "src"))
    ∧ (alookup demoStepF.params "mode"
        = orElseO (alookup demoStep.params "mode") (alookup demoStepF.defaults "mode")
      ∧ alookup demoStepF.defaults "mode"
        = orElseO (alookup copyCabNamed.defaults "mode")
            (alookup (schemaDefaults copyCabNamed) "mode")) :=
  ⟨C5_defaults_merge demoStep demoConfig emptyWorld demoStepF demoWorldF 0 copyCabNamed
     rfl rfl rfl rfl (by decide) "src",
   C5_defaults_merge demoStep demoConfig emptyWorld demoStepF demoWorldF 0 copyCabNamed
     rfl rfl rfl rfl (by decide) "mode"⟩

/-- C7: two unbound steps naming the same cab, finalized one after the
other, are bound to distinct cargo objects; renaming the cargo of either
step leaves the cargo name seen by the other step unchanged. -/
theorem C7_cab_copies (s1 s2 : Step) (cb : String) (config : Config)
    (w w1 w2 : World) (s1' s2' : Step)
    (_h1cab : s1.cab = some cb) (_h2cab : s2.cab = some cb)
    (h1n : s1.cargo = none) (h2n : s2.cargo = none)
    (hf1 : Step.finalize s1 config w none = .ok (s1', w1))
    (hf2 : Step.finalize s2 config w1 none = .ok (s2', w2)) :
    s1'.cargo ≠ s2'.cargo
    ∧ (∀ x, cargoName (setCargoName w2 s2' x) s1' = cargoName w2 s1')
    ∧ (∀ x, cargoName (setCargoName w2 s1' x) s2' = cargoName w2 s2') := by
  rw [finalize_none_eq h1n] at hf1
  rw [finalize_none_eq h2n] at hf2
  obtain ⟨cid1, c1, wa, hrc1, hcg1, _, _, _, _, _, _, _, _, _, hw1⟩ := finalizeFresh_shape hf1
  obtain ⟨cid2, c2, wb, hrc2, hcg2, _, _, _, _, _, _, _, _, _, hw2⟩ := finalizeFresh_shape hf2
  obtain ⟨he1, hn1, _⟩ := resolveCargo_spec hrc1
  obtain ⟨he2, hn2, _⟩ := resolveCargo_spec hrc2
  have hw1n : w1.nextId = w.nextId + 1 := by rw [hw1]; exact hn1
  have hne : cid1 ≠ cid2 := by
    rw [he1, he2, hw1n]
    omega
  refine ⟨?_, ?_, ?_⟩
  · rw [hcg1, hcg2]
    simp [hne]
  · intro x
    unfold setCargoName cargoName
    rw [hcg2, hcg1]
    cases hh : heapGet w2 cid2 with
    | none => simp [hh]
    | some cc => simp [hh, heapGet_heapSet_ne _ _ _ _ hne]
  · intro x
    unfold setCargoName cargoName
    rw [hcg2, hcg1]
    cases hh : heapGet w2 cid1 with
    | none => simp [hh]
    | some cc => simp [hh, heapGet_heapSet_ne _ _ _ _ (Ne.symm hne)]

/-- C7 witness: both demo steps target `copy`; after finalizing both, their
cargo ids differ and renaming one cargo does not change the other's name. -/
theorem C7_witness :
    demoStepF.cargo ≠ demoStep2F.cargo
    ∧ cargoName (setCargoName demoWorld2F demoStep2F "X") demoStepF
        = cargoName demoWorld2F demoStepF
    ∧ cargoName (setCargoName demoWorld2F demoStepF "X") demoStep2F
        = cargoName demoWorld2F demoStep2F :=
  have h := C7_cab_copies demoStep demoStep2 "copy" demoConfig emptyWorld demoWorldF
    demoWorld2F demoStepF demoStep2F rfl rfl rfl rfl rfl rfl
  ⟨h.1, h.2.1 "X", h.2.2 "X"⟩

/-- C10: `prevalidate` finalizes, stores the engine's prevalidation result
as `validated_params`, and raises a `StepValidationError` naming the
invalid parameters exactly when some value came back marked invalid —
the quantification places no constraint on the step's skip fields, which
`prevalidate` never consults; on success it returns the validated map. -/
theorem C10_prevalidate (s : Step) (config : Config) (w : World) (env : Env)
    (subst : SubstArg) (s1 : Step) (w1 : World) (cid : Nat) (cg : Cargo)
    (hfin : Step.finalize s config w none = .ok (s1, w1))
    (hcid : s1.cargo = some cid) (hcg : heapGet w1 cid = some cg) :
    (invalidOf (env.prevalidateCargo cg s1.params subst) = [] →
       Step.prevalidate s config w env subst
         = .ok ({ s1 with validated_params
                    := some (env.prevalidateCargo cg s1.params subst) }, w1,
                env.prevalidateCargo cg s1.params subst))
    ∧ (invalidOf (env.prevalidateCargo cg s1.params subst) ≠ [] →
       Step.prevalidate s config w env subst
         = .error (.prevalidateInvalid s1.name cg.name
             (invalidOf (env.prevalidateCargo cg s1.params subst)))) := by
  unfold Step.prevalidate
  simp only [hfin, hcid, hcg]
  constructor
  · intro hinv
    simp [Step.invalid_params, hinv]
  · intro hinv
    simp [Step.invalid_params, hinv]

/-- C10 witness: with the benign engine the demo step prevalidates
successfully, returning the flattened-and-defaulted map. -/
theorem C10_witness :
    Step.prevalidate demoStep demoConfig emptyWorld okEnv .absent
      = .ok ({ demoStepF with validated_params := some demoStepF.params }, demoWorldF,
             demoStepF.params) := by
  have h := (C10_prevalidate demoStep demoConfig emptyWorld okEnv .absent demoStepF
    demoWorldF 0 copyCabNamed rfl rfl rfl).1 rfl
  exact h

/-- C6: the skip policy.  (i) A literal boolean token fixes `_skip` at
construction, and `run` never hands the skip expression to the
substitution engine on any later run; (ii) an unset or empty skip
expression fixes the decision to false, so skip evaluates to false on
every run; (iii) a deferred expression with no namespace evaluates to
false for that run without invoking the engine, the run leaves `_skip`
undecided, and a subsequent run with a namespace starts by handing the
expression to the engine. -/
theorem C6_skip_policy (s s' : Step) (hpi : Step.post_init s = .ok s') :
    ((s.skip = some "True" ∨ s.skip = some "true" ∨ s.skip = some "1"
        ∨ s.skip = some "False" ∨ s.skip = some "false" ∨ s.skip = some "0") →
      s'.skipFixed.isSome = true
      ∧ ∀ (config : Config) (w : World) (env : Env) (subst : Option Subst),
          Event.skipSubstEval ∉ (Step.run s' config w env subst).2)
    ∧ ((s.skip = none ∨ s.skip = some "") →
      s'.skipFixed = some false
      ∧ ∀ (env : Env) (subst : Option Subst), (evalSkip s' env subst).1 = false)
    ∧ (s'.skipFixed = none →
      (∀ env : Env, evalSkip s' env none = (false, []))
      ∧ ∀ (config : Config) (w : World) (env : Env) (t : Step) (wo : World)
          (so : Option Subst) (po : Params) (tr : List Event),
          Step.run s' config w env none = (.ok (t, wo, so, po), tr) →
          t.skipFixed = none ∧ t.validated_params.isSome = true
          ∧ ∀ (config2 : Config) (env2 : Env) (sb : Subst) (cid : Nat) (cg : Cargo),
              t.cargo = some cid → heapGet wo cid = some cg →
              ∃ rest, (Step.run t config2 wo env2 (some sb)).2
                  = Event.skipSubstEval :: rest) := by
  have hs' : s'.skipFixed = skipFixedOf s.skip := by
    simp only [Step.post_init] at hpi
    split at hpi
    · simp at hpi
    · simp only [Except.ok.injEq] at hpi
      rw [← hpi]
  refine ⟨?_, ?_, ?_⟩
  · intro hlit
    have hsf : s'.skipFixed.isSome = true := by
      rw [hs']
      rcases hlit with h | h | h | h | h | h <;> rw [h] <;> decide
    exact ⟨hsf, fun config w env subst => run_no_eval config w env subst hsf⟩
  · intro hun
    have hsf : s'.skipFixed = some false := by
      rw [hs']
      rcases hun with h | h <;> rw [h] <;> decide
    refine ⟨hsf, fun env subst => ?_⟩
    simp [evalSkip, hsf]
  · intro hdef
    refine ⟨fun env => by simp [evalSkip, hdef], ?_⟩
    intro config w env t wo so po tr hrun
    obtain ⟨g1, g2⟩ := run_ok_state hrun
    refine ⟨g1.trans hdef, g2, ?_⟩
    intro config2 env2 sb cid cg hcid hcg
    obtain ⟨vp, hvp⟩ := Option.isSome_iff_exists.mp g2
    unfold Step.run
    simp only [hvp]
    exact runCore_trace_head config2 wo env2 sb (g1.trans hdef) hcid hcg

/-- C6 witness: a step whose skip expression is the literal `"true"` has
its decision fixed at construction, and no run — whatever engine,
namespace or world — ever hands the skip expression to the substitution
engine. -/
theorem C6_witness :
    c6stepP.skipFixed.isSome = true
    ∧ ∀ (config : Config) (w : World) (env : Env) (subst : Option Subst),
        Event.skipSubstEval ∉ (Step.run c6stepP config w env subst).2 :=
  (C6_skip_policy c6step c6stepP rfl).1 (Or.inr (Or.inl rfl))

/-- C8: for a non-skipped run of a prevalidated step bound to an external
task whose input validation succeeds (and whose invalid set is empty or —
per the source suppression — the raw skip string is truthy), the trace
contains exactly one dispatch event: the task runner invoked with the
input-validated parameter map and the backend selected as step override,
else cargo backend, else the process-wide default. -/
theorem C8_dispatch (s : Step) (config : Config) (w : World) (env : Env)
    (subst : Option Subst) (vp p1 : Params) (cid : Nat) (cg : Cargo)
    (hvp : s.validated_params = some vp)
    (hcid : s.cargo = some cid)
    (hcg : heapGet w cid = some cg)
    (hkind : cg.kind = .cab)
    (hskip : (evalSkip s env subst).1 = false)
    (hvi : env.validate_inputs cg (aupdate vp s.params) false subst = .ok p1)
    (hok : ((invalidOf (aupdate vp p1)) ++ (unresolvedOf (aupdate vp p1))).isEmpty = true
           ∨ truthyOptStr s.skip = true) :
    ((Step.run s config w env subst).2).filter isDispatch
      = [Event.runCab p1 (backendOf s cg config)] := by
  unfold Step.run
  simp only [hvp]
  refine runCore_cab_filter hcid hcg hkind hskip ?_ ?_
  · rw [hvp]
    simpa using hvi
  · rw [hvp]
    simpa using hok

/-- C8 witness: the prevalidated `c8step` runs against the benign engine;
the trace holds exactly one dispatch, the task runner with the validated
map and the process-wide default backend. -/
theorem C8_witness :
    ((Step.run c8step demoConfig plainWorld okEnv none).2).filter isDispatch
      = [Event.runCab [("src", PValue.str "a")] (backendOf c8step plainCab demoConfig)] :=
  C8_dispatch c8step demoConfig plainWorld okEnv none [] [("src", PValue.str "a")] 0
    plainCab rfl rfl rfl rfl rfl rfl (Or.inl rfl)

end Stimela
